import Mathlib

/-!
# CodePulse — verification of the scanning, detection and scoring engine

This file is a shallow embedding of the CodePulse analysis engine
(`analyzeWorkspace` in the extension source, `src/extension.ts`) into Lean 4,
together with theorems settling the specification claims about it.

Modelling conventions:
* JavaScript strings are modelled as `List Char` (the scanned inputs are
  ASCII, so UTF-16 code-unit indexing and character indexing agree).
* The three secret regexes, the nested-loop regex and the eval regex are
  embedded as explicit scanners.  Wherever a regex quantifier is followed by
  a character class disjoint from the quantified class, greedy matching
  needs no backtracking and the scanner is written deterministically; the
  lazy `.*?` of the nested-loop pattern and the greedy `[^}]*` are given
  genuine backtracking.
* `Math.round`, which the engine applies to a non-negative quotient, is
  modelled on `ℚ` as `⌊q + 1/2⌋` (JavaScript rounds half-way cases up);
  numeric operations are modelled in exact rational arithmetic.
* The host collaborators (`findFiles`, `openTextDocument`,
  `asRelativePath`, `path.basename`, `path.extname`, the wall clock) supply
  inputs: each scanned file arrives as an `InputFile`, and the Node `path`
  functions are embedded below following Node's documented POSIX behaviour.
-/

namespace CodePulse

/-- JavaScript `\s`: space, `\t`, `\n`, `\v`, `\f`, `\r`, and the Unicode
space characters (NBSP, Ogham space, U+2000–U+200A, LS, PS, NNBSP, MMSP,
ideographic space, BOM). -/
def isJsWs (c : Char) : Bool :=
  c.val == 0x20 || c.val == 0x09 || c.val == 0x0A || c.val == 0x0B ||
  c.val == 0x0C || c.val == 0x0D || c.val == 0xA0 || c.val == 0x1680 ||
  (0x2000 ≤ c.val && c.val ≤ 0x200A) || c.val == 0x2028 || c.val == 0x2029 ||
  c.val == 0x202F || c.val == 0x205F || c.val == 0x3000 || c.val == 0xFEFF

/-- JavaScript line terminators, i.e. the characters `.` does not match
without the `s` flag: `\n`, `\r`, U+2028, U+2029. -/
def isLineTerm (c : Char) : Bool :=
  c.val == 0x0A || c.val == 0x0D || c.val == 0x2028 || c.val == 0x2029

/-- JavaScript word character `[A-Za-z0-9_]` (as used by `\b`). -/
def isWordChar (c : Char) : Bool :=
  ('A' ≤ c && c ≤ 'Z') || ('a' ≤ c && c ≤ 'z') || ('0' ≤ c && c ≤ '9') || c == '_'

/-- The class `[a-zA-Z0-9]` of the JWT and vendor-key patterns. -/
def isAlnumChar (c : Char) : Bool :=
  ('a' ≤ c && c ≤ 'z') || ('A' ≤ c && c ≤ 'Z') || ('0' ≤ c && c ≤ '9')

/-- The value class of the key/value secret pattern: alphanumerics plus
underscore, hyphen, slash and plus. -/
def isSecretValChar (c : Char) : Bool :=
  isAlnumChar c || c == '_' || c == '-' || c == '/' || c == '+'

/-- The quote class `['"\x60]` (single quote, double quote, backtick). -/
def quoteChars : List Char := ['\x27', '"', '\x60']

/-- One pass of JavaScript `String.prototype.match` with the `g` flag:
`tryAt` attempts a match at the current position and returns the suffix
after the matched portion.  On success the matched substring is recorded
and scanning resumes at the end of the match; on failure scanning advances
one character.  `skip` counts characters still inside the previous match. -/
def scanAux (tryAt : List Char → Option (List Char)) :
    List Char → Nat → List (List Char)
  | [], _ => []
  | _ :: rest, skip + 1 => scanAux tryAt rest skip
  | cs@(_ :: rest), 0 =>
    match tryAt cs with
    | some suffix =>
      cs.take (cs.length - suffix.length) ::
        scanAux tryAt rest (cs.length - suffix.length - 1)
    | none => scanAux tryAt rest 0

/-- `text.match(re)` for a global regex, as the list of matched substrings
(`[]` when `match` returns `null`). -/
def jsGlobalMatch (tryAt : List Char → Option (List Char)) (cs : List Char) :
    List (List Char) :=
  scanAux tryAt cs 0

/-- The credential-name alternation of the first secret pattern, in source
order: `API_KEY|APIKEY|api_key|SECRET|PASSWORD|PASSWD|TOKEN|ACCESS_KEY`. -/
def keywordAlts : List (List Char) :=
  ["API_KEY".data, "APIKEY".data, "api_key".data, "SECRET".data,
   "PASSWORD".data, "PASSWD".data, "TOKEN".data, "ACCESS_KEY".data]

/-- After a credential keyword: `\s*`, a separator `:` or `=`, `\s*`, an
opening quote, at least 8 value-class characters, and a closing quote.
`\s*` is greedy and the separator, the quotes and the value class are
disjoint from `\s`, and the closing-quote class is disjoint from the value
class, so greedy matching is deterministic. -/
def secretKeyRest (cs : List Char) : Option (List Char) :=
  match cs.dropWhile isJsWs with
  | sep :: t2 =>
    if sep = ':' ∨ sep = '=' then
      match t2.dropWhile isJsWs with
      | q :: t4 =>
        if q ∈ quoteChars then
          let run := t4.takeWhile isSecretValChar
          if 8 ≤ run.length then
            match t4.dropWhile isSecretValChar with
            | q2 :: t6 => if q2 ∈ quoteChars then some t6 else none
            | [] => none
          else none
        else none
      | [] => none
    else none
  | [] => none

/-- Match attempt for pattern 1 at the current position.  No keyword of the
alternation is a prefix of another, so at most one alternative can match the
text here and trying them in source order with no cross-alternative
backtracking is faithful to the regex. -/
def trySecretKey (cs : List Char) : Option (List Char) :=
  keywordAlts.findSome? fun kw =>
    if kw.isPrefixOf cs then secretKeyRest (cs.drop kw.length) else none

/-- Match attempt for pattern 2, `(?:eyJ[a-zA-Z0-9]{10,})`: the greedy
quantifier ends the pattern, so it consumes the whole alphanumeric run. -/
def tryJwt (cs : List Char) : Option (List Char) :=
  match cs with
  | 'e' :: 'y' :: 'J' :: t =>
    if 10 ≤ (t.takeWhile isAlnumChar).length then some (t.dropWhile isAlnumChar)
    else none
  | _ => none

/-- The `[a-zA-Z0-9]{20,}` tail of the vendor-key pattern. -/
def vendorRest (t : List Char) : Option (List Char) :=
  if 20 ≤ (t.takeWhile isAlnumChar).length then some (t.dropWhile isAlnumChar)
  else none

/-- Match attempt for pattern 3, `(?:sk-|pk-)[a-zA-Z0-9]{20,}`.  The two
alternatives differ in their first character, so they never compete. -/
def tryVendorKey (cs : List Char) : Option (List Char) :=
  match cs with
  | 's' :: 'k' :: '-' :: t => vendorRest t
  | 'p' :: 'k' :: '-' :: t => vendorRest t
  | _ => none

/-- The written-out global match lists of the three secret patterns on a
file's text, in source order. -/
def secretKeyMatches (cs : List Char) : List (List Char) :=
  jsGlobalMatch trySecretKey cs

/-- Global matches of the JWT-shaped pattern. -/
def jwtMatches (cs : List Char) : List (List Char) :=
  jsGlobalMatch tryJwt cs

/-- Global matches of the vendor-key pattern. -/
def vendorKeyMatches (cs : List Char) : List (List Char) :=
  jsGlobalMatch tryVendorKey cs

/-- The tail `for\s*\(` of the nested-loop pattern: deterministic, since
`(` is not a whitespace character. -/
def tryForTail (cs : List Char) : Option (List Char) :=
  match cs with
  | 'f' :: 'o' :: 'r' :: t =>
    match t.dropWhile isJsWs with
    | '(' :: t2 => some t2
    | _ => none
  | _ => none

/-- The greedy run of non-`\x7d` characters of the nested-loop pattern
followed by `for\s*\(`.  `run` is the maximal brace-free run after the
opening brace and `after` the remainder (empty or starting with `\x7d`);
since no character of `for\s*\(` is a closing brace, the tail can only
match inside `run`, and greediness means the deepest (last) occurrence
wins: longer consumptions are tried before shorter ones. -/
def greedyNonBrace (run after : List Char) : Option (List Char) :=
  match run with
  | [] => tryForTail after
  | c :: rest =>
    match greedyNonBrace rest after with
    | some s => some s
    | none => tryForTail (c :: rest ++ after)

/-- After the first closing parenthesis candidate: `\s*`, `\x7b`, then the
greedy brace-free run and the inner `for\s*\(`. -/
def afterCloseParen (cs : List Char) : Option (List Char) :=
  match cs.dropWhile isJsWs with
  | '\x7b' :: t =>
    greedyNonBrace (t.takeWhile (fun c => c ≠ '\x7d'))
      (t.dropWhile (fun c => c ≠ '\x7d'))
  | _ => none

/-- The lazy `.*?\)` of the nested-loop pattern followed by its remainder:
candidate closing parentheses are tried from the nearest outwards, the
skipped characters all matched by `.` (so no line terminators), and on
failure the parenthesis itself is absorbed by `.*?`. -/
def lazyDotStar (cs : List Char) : Option (List Char) :=
  match cs with
  | [] => none
  | c :: rest =>
    if isLineTerm c then none
    else if c = ')' then
      match afterCloseParen rest with
      | some s => some s
      | none => lazyDotStar rest
    else lazyDotStar rest

/-- Match attempt for the nested-loop pattern
`for\s*\(.*?\)\s*\x7b[^\x7d]*for\s*\(` at the current position. -/
def tryNested (cs : List Char) : Option (List Char) :=
  match cs with
  | 'f' :: 'o' :: 'r' :: t =>
    match t.dropWhile isJsWs with
    | '(' :: t2 => lazyDotStar t2
    | _ => none
  | _ => none

/-- Global matches of the nested-loop pattern on a file's text. -/
def nestedLoopMatches (cs : List Char) : List (List Char) :=
  jsGlobalMatch tryNested cs

/-- Does `\beval\s*\(` match starting exactly here?  `\b` holds because the
caller guarantees the preceding character (if any) is not a word
character. -/
def evalHere (cs : List Char) : Bool :=
  match cs with
  | 'e' :: 'v' :: 'a' :: 'l' :: t =>
    match t.dropWhile isJsWs with
    | '(' :: _ => true
    | _ => false
  | _ => false

/-- Scan for `\beval\s*\(` carrying the previous character for the word
boundary test. -/
def evalScanAux : Option Char → List Char → Bool
  | _, [] => false
  | prev, c :: rest =>
    ((match prev with
      | none => true
      | some p => !isWordChar p) && evalHere (c :: rest)) ||
    evalScanAux (some c) rest

/-- `/\beval\s*\(/.test(text)`. -/
def hasEvalCall (cs : List Char) : Bool := evalScanAux none cs

/-! ## Node `path` collaborators

`path.basename` and `path.extname` are host collaborators; they are
embedded here following Node's documented POSIX behaviour: the last
non-empty path component is examined, the extension runs from its last dot
to its end, and it is empty when the component has no dot, starts with its
only dot (a dotfile), or is exactly `..`. -/

/-- Strip trailing `/` separators (Node ignores them). -/
def dropTrailingSeps (cs : List Char) : List Char :=
  (cs.reverse.dropWhile (fun c => c = '/')).reverse

/-- The characters after the last `/`. -/
def afterLastSep (cs : List Char) : List Char :=
  (cs.reverse.takeWhile (fun c => c ≠ '/')).reverse

/-- The last non-empty path component, as examined by Node `basename` and
`extname`. -/
def lastComponent (cs : List Char) : List Char :=
  afterLastSep (dropTrailingSeps cs)

/-- Split a string at its last dot: `lastDotSplit cs = some (pre, post)`
with `cs = pre ++ dot :: post` and `post` dot-free, or `none` when `cs`
has no dot. -/
def lastDotSplit : List Char → Option (List Char × List Char)
  | [] => none
  | c :: rest =>
    match lastDotSplit rest with
    | some (pre, post) => some (c :: pre, post)
    | none => if c = '.' then some ([], rest) else none

/-- Node POSIX `path.basename`. -/
def nodeBasename (p : String) : String := String.mk (lastComponent p.data)

/-- Node POSIX `path.extname`: the suffix of the last component from its
last dot, except for dotfiles (dot at position 0) and the component
`..`, which yield the empty string. -/
def nodeExtname (p : String) : String :=
  let comp := lastComponent p.data
  if comp = ['.', '.'] then ""
  else
    match lastDotSplit comp with
    | none => ""
    | some ([], _) => ""
    | some (_ :: _, post) => String.mk ('.' :: post)

/-- JavaScript `String.prototype.replace` with a single-character string
pattern and empty replacement: remove the first occurrence, if any. -/
def replaceFirstChar : List Char → Char → List Char
  | [], _ => []
  | c :: cs, t => if c = t then cs else c :: replaceFirstChar cs t

/-- `path.extname(fsPath).replace(".", "")` — the `ext` field of a scanned
file. -/
def extOf (p : String) : String :=
  String.mk (replaceFirstChar (nodeExtname p).data '.')

/-! ## Data model -/

/-- The `FileDetail` record of the source: one scanned file. -/
structure FileDetail where
  name : String
  path : String
  lines : Nat
  size : Nat
  ext : String
deriving DecidableEq

/-- The `SecurityIssue` record of the source; the matched-substring field
is called `match` there, a reserved word here. -/
structure SecurityIssue where
  file : String
  line : Nat
  match_ : String
deriving DecidableEq

/-- The `PerformanceIssue` record of the source. -/
structure PerformanceIssue where
  file : String
  count : Nat
  type : String
deriving DecidableEq

/-- The `analysisResult` payload assembled at the end of a run. -/
structure AnalysisReport where
  healthScore : Int
  workspaceName : String
  godFiles : List FileDetail
  securityIssues : List SecurityIssue
  performanceIssues : List PerformanceIssue
  unusedFiles : List FileDetail
  allFiles : List FileDetail
  totalFiles : Nat
  totalLines : Nat
  unusedExports : Nat
  circularDeps : Nat
  scanProgress : Nat
  lastScanned : String
deriving DecidableEq

/-- What the host hands the loop for one discovered file: the document's
text and line count (from `openTextDocument`), the absolute `fsPath`, and
the workspace-relative path (from `asRelativePath`). -/
structure InputFile where
  fsPath : String
  relativePath : String
  text : String
  lineCount : Nat
deriving DecidableEq

/-! ## Per-file detector runs -/

/-- The three global match runs of the security scan on a file's text, in
pattern order. -/
def secMatchLists (text : List Char) : List (List (List Char)) :=
  [secretKeyMatches text, jwtMatches text, vendorKeyMatches text]

/-- `matches[0].substring(0, 40)` followed by the appended ellipsis
character. -/
def truncMatch (m : List Char) : String :=
  String.mk (m.take 40 ++ ['…'])

/-- The security-pattern loop of one file: for each pattern whose match
list is non-null, push one finding built from the first match, with line
number 0. -/
def securityScanFile (rel : String) (text : List Char) : List SecurityIssue :=
  (secMatchLists text).filterMap fun ms =>
    match ms with
    | [] => none
    | m :: _ => some { file := rel, line := 0, match_ := truncMatch m }

/-- The performance checks of one file: one "Nested Loops" finding counting
all nested-loop matches when any exist, then one "eval() usage" finding
with count 1 when the eval test fires. -/
def perfScanFile (rel : String) (text : List Char) : List PerformanceIssue :=
  (match nestedLoopMatches text with
   | [] => []
   | ms => [{ file := rel, count := ms.length, type := "Nested Loops" }]) ++
  (if hasEvalCall text then
    [{ file := rel, count := 1, type := "eval() usage" }]
   else [])

/-- The `FileDetail` built for one file inside the loop (`size` is the
text length, the model of `text.length`). -/
def mkFileDetail (f : InputFile) : FileDetail :=
  { name := nodeBasename f.fsPath
    path := f.fsPath
    lines := f.lineCount
    size := f.text.length
    ext := extOf f.fsPath }

/-! ## The scan loop and the aggregator -/

/-- The accumulating lists and counters of the scan loop. -/
structure ScanAcc where
  godFiles : List FileDetail
  securityIssues : List SecurityIssue
  performanceIssues : List PerformanceIssue
  unusedFiles : List FileDetail
  allFiles : List FileDetail
  totalLines : Nat
deriving DecidableEq

/-- The scan loop over the discovered files, in order: per file, push its
record, classify it by size (god file when `lines > 500`, near-empty stub
when `lines < 5 && lines > 0`), and append the security and performance
findings. -/
def scanFiles : List InputFile → ScanAcc
  | [] => ⟨[], [], [], [], [], 0⟩
  | f :: rest =>
    let fd := mkFileDetail f
    let acc := scanFiles rest
    { godFiles := (if fd.lines > 500 then [fd] else []) ++ acc.godFiles
      securityIssues :=
        securityScanFile f.relativePath f.text.data ++ acc.securityIssues
      performanceIssues :=
        perfScanFile f.relativePath f.text.data ++ acc.performanceIssues
      unusedFiles :=
        (if fd.lines < 5 && fd.lines > 0 then [fd] else []) ++ acc.unusedFiles
      allFiles := fd :: acc.allFiles
      totalLines := fd.lines + acc.totalLines }

/-- The whole successful `analyzeWorkspace` run as a pure function: scan
all files, compute the weighted deductions and the clamped health score,
and assemble the report.  `workspaceName` and the completion timestamp
`now` are host inputs. -/
def analyzeWorkspace (workspaceName now : String) (files : List InputFile) :
    AnalysisReport :=
  let acc := scanFiles files
  let deductions : Int :=
    acc.securityIssues.length * 15 + acc.godFiles.length * 5 +
    acc.performanceIssues.length * 8 + acc.unusedFiles.length * 2
  let healthScore : Int := max 0 (min 100 (100 - deductions))
  { healthScore := healthScore
    workspaceName := workspaceName
    godFiles := acc.godFiles
    securityIssues := acc.securityIssues
    performanceIssues := acc.performanceIssues
    unusedFiles := acc.unusedFiles
    allFiles := acc.allFiles
    totalFiles := files.length
    totalLines := acc.totalLines
    unusedExports := acc.unusedFiles.length
    circularDeps := 0
    scanProgress := 100
    lastScanned := now }

/-! ## The progress/report channel -/

/-- The four webview message kinds posted by a run. -/
inductive Event where
  | analysisStarted : Event
  | progress : Int → Event
  | analysisResult : AnalysisReport → Event
  | analysisFailed : Event
deriving DecidableEq

/-- JavaScript `Math.round` on a non-negative quotient, in exact rational
arithmetic: half-way cases round up. -/
def jsRound (q : ℚ) : Int := ⌊q + 1 / 2⌋

/-- The events posted inside the loop.  Each iteration first posts its
progress percentage `Math.round((done + 1) / n * 85)`; a `none` read models
`openTextDocument` (or anything else in the body) throwing, which aborts
the loop — the `Bool` records whether the loop ran to completion. -/
def scanLoopEvents (n : Nat) (done : Nat) :
    List (Option InputFile) → List Event × Bool
  | [] => ([], true)
  | r :: rest =>
    let pct := jsRound ((done + 1 : ℚ) / (n : ℚ) * 85)
    match r with
    | none => ([Event.progress pct], false)
    | some _ =>
      match scanLoopEvents n (done + 1) rest with
      | (es, ok) => (Event.progress pct :: es, ok)

/-- The full event trace of a run over the discovered files (`none` marks
a file whose processing throws): `analysisStarted`, the loop's progress
events, then either `progress 100` and the report, or — via the
surrounding catch — a single `analysisFailed` with no payload. -/
def analyzeWorkspaceEvents (workspaceName now : String)
    (reads : List (Option InputFile)) : List Event :=
  Event.analysisStarted ::
    (match scanLoopEvents reads.length 0 reads with
     | (es, true) =>
       es ++ [Event.progress 100,
              Event.analysisResult
                (analyzeWorkspace workspaceName now (reads.filterMap id))]
     | (es, false) => es ++ [Event.analysisFailed])

/-! ## Structure of the accumulated lists -/

theorem scanFiles_allFiles (files : List InputFile) :
    (scanFiles files).allFiles = files.map mkFileDetail := by
  induction files with
  | nil => rfl
  | cons f rest ih => simp [scanFiles, ih]

theorem scanFiles_godFiles (files : List InputFile) :
    (scanFiles files).godFiles =
      (scanFiles files).allFiles.filter (fun fd => fd.lines > 500) := by
  induction files with
  | nil => rfl
  | cons f rest ih =>
    simp only [scanFiles, List.filter_cons]
    by_cases h : (mkFileDetail f).lines > 500 <;> simp [h, ih]

theorem scanFiles_unusedFiles (files : List InputFile) :
    (scanFiles files).unusedFiles =
      (scanFiles files).allFiles.filter
        (fun fd => fd.lines < 5 && fd.lines > 0) := by
  induction files with
  | nil => rfl
  | cons f rest ih =>
    simp only [scanFiles, List.filter_cons]
    by_cases h : ((mkFileDetail f).lines < 5 && (mkFileDetail f).lines > 0) = true <;>
      simp [h, ih]

/-! ## Claim theorems -/

/-- C1: for every scan run, the health score equals
`clamp(100 - deductions, 0, 100)` where `deductions` is 15 per security
finding, 5 per god file, 8 per performance finding and 2 per near-empty
file, and the score always lies in `[0, 100]`. -/
theorem healthScore_clamped (wn now : String) (files : List InputFile) :
    (analyzeWorkspace wn now files).healthScore =
      max 0 (min 100 (100 -
        (15 * ((analyzeWorkspace wn now files).securityIssues.length : Int) +
         5 * ((analyzeWorkspace wn now files).godFiles.length : Int) +
         8 * ((analyzeWorkspace wn now files).performanceIssues.length : Int) +
         2 * ((analyzeWorkspace wn now files).unusedFiles.length : Int)))) ∧
    0 ≤ (analyzeWorkspace wn now files).healthScore ∧
    (analyzeWorkspace wn now files).healthScore ≤ 100 := by
  refine ⟨?_, ?_, ?_⟩ <;> simp only [analyzeWorkspace] <;> omega

/-- C2: the health score is 100 exactly when there are no security
findings, no god files, no performance findings and no near-empty files;
and a scan over an empty file set yields score 100, zero files, zero
lines, empty finding lists and zero circular dependencies. -/
theorem healthScore_hundred_iff (wn now : String) (files : List InputFile) :
    ((analyzeWorkspace wn now files).healthScore = 100 ↔
      (analyzeWorkspace wn now files).securityIssues = [] ∧
      (analyzeWorkspace wn now files).godFiles = [] ∧
      (analyzeWorkspace wn now files).performanceIssues = [] ∧
      (analyzeWorkspace wn now files).unusedFiles = []) ∧
    (analyzeWorkspace wn now []).healthScore = 100 ∧
    (analyzeWorkspace wn now []).totalFiles = 0 ∧
    (analyzeWorkspace wn now []).totalLines = 0 ∧
    (analyzeWorkspace wn now []).securityIssues = [] ∧
    (analyzeWorkspace wn now []).godFiles = [] ∧
    (analyzeWorkspace wn now []).performanceIssues = [] ∧
    (analyzeWorkspace wn now []).unusedFiles = [] ∧
    (analyzeWorkspace wn now []).allFiles = [] ∧
    (analyzeWorkspace wn now []).circularDeps = 0 := by
  refine ⟨?_, by simp [analyzeWorkspace, scanFiles]⟩
  simp only [analyzeWorkspace, ← List.length_eq_zero]
  omega

/-- C5 (amended): a file record is in the god-files list exactly when it is
in the all-files list with a line count strictly above 500 — so a 500-line
file is never a god file — and the god-files list is a sublist of the
all-files list (not necessarily a proper one). -/
theorem godFiles_mem_iff (wn now : String) (files : List InputFile)
    (fd : FileDetail) :
    (fd ∈ (analyzeWorkspace wn now files).godFiles ↔
      fd ∈ (analyzeWorkspace wn now files).allFiles ∧ 500 < fd.lines) ∧
    (∀ x ∈ (analyzeWorkspace wn now files).godFiles,
      x ∈ (analyzeWorkspace wn now files).allFiles) := by
  constructor
  · simp [analyzeWorkspace, scanFiles_godFiles, List.mem_filter]
  · intro x hx
    simp only [analyzeWorkspace, scanFiles_godFiles, List.mem_filter] at hx ⊢
    exact hx.1

/-- C5 (counterexample): on a workspace whose only file has 501 lines the
god-files list *equals* the all-files list, so it is not a strict subset
of it. -/
theorem godFiles_not_strict_subset :
    (analyzeWorkspace "w" "t"
        [⟨"/w/big.ts", "big.ts", "x", 501⟩]).godFiles =
      (analyzeWorkspace "w" "t"
        [⟨"/w/big.ts", "big.ts", "x", 501⟩]).allFiles ∧
    (analyzeWorkspace "w" "t"
        [⟨"/w/big.ts", "big.ts", "x", 501⟩]).godFiles ≠ [] ∧
    ¬ ({fd | fd ∈ (analyzeWorkspace "w" "t"
          [⟨"/w/big.ts", "big.ts", "x", 501⟩]).godFiles} ⊂
       {fd | fd ∈ (analyzeWorkspace "w" "t"
          [⟨"/w/big.ts", "big.ts", "x", 501⟩]).allFiles}) := by
  refine ⟨by decide, by decide, ?_⟩
  intro h
  rw [show (analyzeWorkspace "w" "t"
        [⟨"/w/big.ts", "big.ts", "x", 501⟩]).godFiles =
      (analyzeWorkspace "w" "t"
        [⟨"/w/big.ts", "big.ts", "x", 501⟩]).allFiles from by decide] at h
  exact ssubset_irrefl _ h

/-- C5 (witness): a 501-line file really lands in the god-files list. -/
theorem godFiles_mem_iff_witness :
    (⟨"big.ts", "/w/big.ts", 501, 1, "ts"⟩ : FileDetail) ∈
      (analyzeWorkspace "w" "t"
        [⟨"/w/big.ts", "big.ts", "x", 501⟩]).godFiles :=
  (godFiles_mem_iff "w" "t" [⟨"/w/big.ts", "big.ts", "x", 501⟩]
      ⟨"big.ts", "/w/big.ts", 501, 1, "ts"⟩).1.mpr ⟨by decide, by decide⟩

/-- C6 (amended): a file record is in the near-empty (unused) list exactly
when it is in the all-files list with a line count strictly between 0 and
5; a zero-line file is never in it; and the list is a sublist of the
all-files list (not necessarily a proper one). -/
theorem unusedFiles_mem_iff (wn now : String) (files : List InputFile)
    (fd : FileDetail) :
    (fd ∈ (analyzeWorkspace wn now files).unusedFiles ↔
      fd ∈ (analyzeWorkspace wn now files).allFiles ∧
        0 < fd.lines ∧ fd.lines < 5) ∧
    (fd.lines = 0 → fd ∉ (analyzeWorkspace wn now files).unusedFiles) ∧
    (∀ x ∈ (analyzeWorkspace wn now files).unusedFiles,
      x ∈ (analyzeWorkspace wn now files).allFiles) := by
  refine ⟨?_, ?_, ?_⟩
  · simp [analyzeWorkspace, scanFiles_unusedFiles, List.mem_filter]
    tauto
  · intro h0 hmem
    simp only [analyzeWorkspace, scanFiles_unusedFiles, List.mem_filter,
      Bool.and_eq_true, decide_eq_true_eq] at hmem
    omega
  · intro x hx
    simp only [analyzeWorkspace, scanFiles_unusedFiles, List.mem_filter] at hx ⊢
    exact hx.1

/-- C6 (counterexample): on a workspace whose only file has 3 lines the
near-empty list *equals* the all-files list, so it is not a strict subset
of it. -/
theorem unusedFiles_not_strict_subset :
    (analyzeWorkspace "w" "t"
        [⟨"/w/tiny.ts", "tiny.ts", "y", 3⟩]).unusedFiles =
      (analyzeWorkspace "w" "t"
        [⟨"/w/tiny.ts", "tiny.ts", "y", 3⟩]).allFiles ∧
    (analyzeWorkspace "w" "t"
        [⟨"/w/tiny.ts", "tiny.ts", "y", 3⟩]).unusedFiles ≠ [] ∧
    ¬ ({fd | fd ∈ (analyzeWorkspace "w" "t"
          [⟨"/w/tiny.ts", "tiny.ts", "y", 3⟩]).unusedFiles} ⊂
       {fd | fd ∈ (analyzeWorkspace "w" "t"
          [⟨"/w/tiny.ts", "tiny.ts", "y", 3⟩]).allFiles}) := by
  refine ⟨by decide, by decide, ?_⟩
  intro h
  rw [show (analyzeWorkspace "w" "t"
        [⟨"/w/tiny.ts", "tiny.ts", "y", 3⟩]).unusedFiles =
      (analyzeWorkspace "w" "t"
        [⟨"/w/tiny.ts", "tiny.ts", "y", 3⟩]).allFiles from by decide] at h
  exact ssubset_irrefl _ h

/-- C6 (witness): a 3-line file really lands in the near-empty list, and
the sublist direction holds for it. -/
theorem unusedFiles_mem_iff_witness :
    (⟨"tiny.ts", "/w/tiny.ts", 3, 1, "ts"⟩ : FileDetail) ∈
      (analyzeWorkspace "w" "t"
        [⟨"/w/tiny.ts", "tiny.ts", "y", 3⟩]).allFiles :=
  (unusedFiles_mem_iff "w" "t" [⟨"/w/tiny.ts", "tiny.ts", "y", 3⟩]
      ⟨"tiny.ts", "/w/tiny.ts", 3, 1, "ts"⟩).2.2
    ⟨"tiny.ts", "/w/tiny.ts", 3, 1, "ts"⟩ (by decide)

/-- Membership in the run's accumulated security findings comes from some
scanned file's security scan. -/
theorem mem_scanFiles_securityIssues {files : List InputFile}
    {f : SecurityIssue} (hf : f ∈ (scanFiles files).securityIssues) :
    ∃ fl ∈ files, f ∈ securityScanFile fl.relativePath fl.text.data := by
  induction files with
  | nil => simp [scanFiles] at hf
  | cons g rest ih =>
    simp only [scanFiles, List.mem_append] at hf
    rcases hf with hf | hf
    · exact ⟨g, List.mem_cons_self .., hf⟩
    · obtain ⟨fl, hmem, hscan⟩ := ih hf
      exact ⟨fl, List.mem_cons_of_mem _ hmem, hscan⟩

/-- A finding of one file's security scan records the first match of one of
the three patterns, truncated, at line 0. -/
theorem mem_securityScanFile {rel : String} {t : List Char}
    {f : SecurityIssue} (hf : f ∈ securityScanFile rel t) :
    ∃ m : List Char, f = ⟨rel, 0, truncMatch m⟩ := by
  simp only [securityScanFile, List.mem_filterMap] at hf
  obtain ⟨ms, _, hms⟩ := hf
  cases ms with
  | nil => simp at hms
  | cons m rest =>
    refine ⟨m, ?_⟩
    simpa [eq_comm] using hms

/-- C3: per file, each of the three secret patterns contributes exactly one
finding when it matches at all — built from its first match, truncated,
with line number 0 — and none otherwise; concretely, a file in which the
key/value pattern matches three times still yields a single finding. -/
theorem securityScan_one_per_pattern (rel : String) (t : List Char) :
    securityScanFile rel t =
      ((secMatchLists t).filter (fun ms => !ms.isEmpty)).map
        (fun ms =>
          { file := rel, line := 0, match_ := truncMatch (ms.headD []) }) ∧
    (∀ f ∈ securityScanFile rel t, f.line = 0) ∧
    (secretKeyMatches
      "TOKEN = \"aaaaaaaa\" TOKEN = \"bbbbbbbb\" TOKEN = \"cccccccc\"".data).length
        = 3 ∧
    securityScanFile "cfg.ts"
      "TOKEN = \"aaaaaaaa\" TOKEN = \"bbbbbbbb\" TOKEN = \"cccccccc\"".data =
      [⟨"cfg.ts", 0, "TOKEN = \"aaaaaaaa\"…"⟩] := by
  have heq : securityScanFile rel t =
      ((secMatchLists t).filter (fun ms => !ms.isEmpty)).map
        (fun ms =>
          { file := rel, line := 0, match_ := truncMatch (ms.headD []) }) := by
    rcases h1 : secretKeyMatches t with _ | ⟨m1, r1⟩ <;>
      rcases h2 : jwtMatches t with _ | ⟨m2, r2⟩ <;>
        rcases h3 : vendorKeyMatches t with _ | ⟨m3, r3⟩ <;>
          simp [securityScanFile, secMatchLists, h1, h2, h3]
  refine ⟨heq, ?_, by decide, by decide⟩
  intro f hf
  obtain ⟨m, rfl⟩ := mem_securityScanFile hf
  rfl

/-- C3 (witness): the single finding of the three-match scenario file is
at line 0. -/
theorem securityScan_one_per_pattern_witness :
    ((⟨"cfg.ts", 0, "TOKEN = \"aaaaaaaa\"…"⟩ : SecurityIssue) ∈
      securityScanFile "cfg.ts"
        "TOKEN = \"aaaaaaaa\" TOKEN = \"bbbbbbbb\" TOKEN = \"cccccccc\"".data) ∧
    (⟨"cfg.ts", 0, "TOKEN = \"aaaaaaaa\"…"⟩ : SecurityIssue).line = 0 :=
  ⟨by decide,
   (securityScan_one_per_pattern "cfg.ts"
       "TOKEN = \"aaaaaaaa\" TOKEN = \"bbbbbbbb\" TOKEN = \"cccccccc\"".data).2.1
     ⟨"cfg.ts", 0, "TOKEN = \"aaaaaaaa\"…"⟩ (by decide)⟩

/-- C4: a file with at least one textual nested-loop match contributes
exactly one "Nested Loops" finding, whose count is the total number of
such matches in the file; on the single-line scenario input the count
is 1. -/
theorem nestedLoops_counted (rel : String) (t : List Char)
    (h : nestedLoopMatches t ≠ []) :
    (perfScanFile rel t).filter (fun pi => pi.type = "Nested Loops") =
      [⟨rel, (nestedLoopMatches t).length, "Nested Loops"⟩] ∧
    perfScanFile "demo.ts"
      "for (i=0;i<n;i++) \x7b for (j=0;j<n;j++) \x7b\x7d \x7d".data =
      [⟨"demo.ts", 1, "Nested Loops"⟩] := by
  refine ⟨?_, by decide⟩
  rcases hnl : nestedLoopMatches t with _ | ⟨m, ms⟩
  · exact absurd hnl h
  · by_cases he : hasEvalCall t <;>
      simp [perfScanFile, hnl, he, List.filter_cons, List.filter_append]

/-- C10: every emitted security finding's match string is some first match
truncated to its first forty characters with the ellipsis character
appended unconditionally — it always ends in the ellipsis and is never
longer than 41 characters. -/
theorem securityMatch_ellipsis (wn now : String) (files : List InputFile)
    (f : SecurityIssue)
    (hf : f ∈ (analyzeWorkspace wn now files).securityIssues) :
    (∃ m : List Char, f.match_.data = m.take 40 ++ ['…']) ∧
    f.match_.data.getLast? = some '…' ∧
    f.match_.length ≤ 41 := by
  have hf' : f ∈ (scanFiles files).securityIssues := hf
  obtain ⟨fl, _, hscan⟩ := mem_scanFiles_securityIssues hf'
  obtain ⟨m, rfl⟩ := mem_securityScanFile hscan
  refine ⟨⟨m, rfl⟩, List.getLast?_concat _, ?_⟩
  show (m.take 40 ++ ['…']).length ≤ 41
  have := List.length_take_le 40 m
  simp only [List.length_append, List.length_cons, List.length_nil]
  omega

/-- C10 (witness): a short secret still gets the ellipsis appended. -/
theorem securityMatch_ellipsis_witness :
    ((⟨"k.ts", 0, "API_KEY = \"zzzzzzzz\"…"⟩ : SecurityIssue) ∈
      (analyzeWorkspace "w" "t"
        [⟨"/w/k.ts", "k.ts", "API_KEY = \"zzzzzzzz\"", 1⟩]).securityIssues) ∧
    ((∃ m : List Char,
        ("API_KEY = \"zzzzzzzz\"…" : String).data = m.take 40 ++ ['…']) ∧
      ("API_KEY = \"zzzzzzzz\"…" : String).data.getLast? = some '…' ∧
      ("API_KEY = \"zzzzzzzz\"…" : String).length ≤ 41) :=
  ⟨by decide,
   securityMatch_ellipsis "w" "t"
     [⟨"/w/k.ts", "k.ts", "API_KEY = \"zzzzzzzz\"", 1⟩]
     ⟨"k.ts", 0, "API_KEY = \"zzzzzzzz\"…"⟩ (by decide)⟩

/-- C4 (witness): the scenario input has a non-empty match list and the
general count statement holds on it. -/
theorem nestedLoops_counted_witness :
    nestedLoopMatches
      "for (i=0;i<n;i++) \x7b for (j=0;j<n;j++) \x7b\x7d \x7d".data ≠ [] ∧
    ((perfScanFile "demo.ts"
        "for (i=0;i<n;i++) \x7b for (j=0;j<n;j++) \x7b\x7d \x7d".data).filter
          (fun pi => pi.type = "Nested Loops") =
      [⟨"demo.ts",
        (nestedLoopMatches
          "for (i=0;i<n;i++) \x7b for (j=0;j<n;j++) \x7b\x7d \x7d".data).length,
        "Nested Loops"⟩] ∧
    perfScanFile "demo.ts"
      "for (i=0;i<n;i++) \x7b for (j=0;j<n;j++) \x7b\x7d \x7d".data =
      [⟨"demo.ts", 1, "Nested Loops"⟩]) :=
  ⟨by decide,
   nestedLoops_counted "demo.ts"
     "for (i=0;i<n;i++) \x7b for (j=0;j<n;j++) \x7b\x7d \x7d".data (by decide)⟩

/-- A string with no split at a last dot contains no dot at all. -/
theorem lastDotSplit_eq_none : ∀ {cs : List Char},
    lastDotSplit cs = none → '.' ∉ cs := by
  intro cs
  induction cs with
  | nil => intro _; simp
  | cons c rest ih =>
    intro h
    simp only [lastDotSplit] at h
    split at h
    · cases h
    · rename_i h2
      split at h
      · cases h
      · rename_i hc
        intro hmem
        rcases List.mem_cons.mp hmem with hh | hh
        · exact hc hh.symm
        · exact ih h2 hh

/-- The part after the last dot is dot-free. -/
theorem lastDotSplit_no_dot : ∀ {cs pre post : List Char},
    lastDotSplit cs = some (pre, post) → '.' ∉ post := by
  intro cs
  induction cs with
  | nil => intro pre post h; cases h
  | cons c rest ih =>
    intro pre post h
    simp only [lastDotSplit] at h
    split at h
    · rename_i pre' post' h2
      have h' := Option.some.inj h
      simp only [Prod.mk.injEq] at h'
      rw [← h'.2]
      exact ih h2
    · rename_i h2
      split at h
      · have h' := Option.some.inj h
        simp only [Prod.mk.injEq] at h'
        rw [← h'.2]
        exact lastDotSplit_eq_none h2
      · cases h

/-- The computed `ext` field never contains a dot (in particular it never
starts with one). -/
theorem extOf_no_dot (p : String) : '.' ∉ (extOf p).data := by
  unfold extOf nodeExtname
  by_cases h2 : lastComponent p.data = ['.', '.']
  · simp [h2, replaceFirstChar]
  · simp only [if_neg h2]
    rcases h3 : lastDotSplit (lastComponent p.data) with _ | ⟨pre, post⟩
    · simp [replaceFirstChar]
    · rcases pre with _ | ⟨c, pre'⟩
      · simp [replaceFirstChar]
      · simpa [replaceFirstChar] using lastDotSplit_no_dot h3

/-- C9 (amended): the extension field of every scanned file record carries
no dot at all — in particular no leading dot — and may be empty; its
characters keep the casing of the file name (no lowercasing is applied). -/
theorem fileRecord_ext_no_dot (wn now : String) (files : List InputFile)
    (fd : FileDetail)
    (hfd : fd ∈ (analyzeWorkspace wn now files).allFiles) :
    '.' ∉ fd.ext.data := by
  have hall : (analyzeWorkspace wn now files).allFiles =
      files.map mkFileDetail := scanFiles_allFiles files
  rw [hall] at hfd
  obtain ⟨f, _, rfl⟩ := List.mem_map.mp hfd
  exact extOf_no_dot f.fsPath

/-- C9 (counterexample): an upper-case file extension is *not* lowercased
by the engine — the `ext` field of `A.TS` is `TS`, which contains an
upper-case letter and differs from `ts`. -/
theorem ext_not_lowercased :
    extOf "/w/A.TS" = "TS" ∧
    (extOf "/w/A.TS").data.any (fun c => c.isUpper) = true ∧
    extOf "/w/A.TS" ≠ "ts" := by decide

/-- C9 (witness): a concrete scanned record has a dot-free extension. -/
theorem fileRecord_ext_no_dot_witness :
    '.' ∉ (⟨"b.JS", "/x/b.JS", 1, 1, "JS"⟩ : FileDetail).ext.data :=
  fileRecord_ext_no_dot "w" "t" [⟨"/x/b.JS", "b.JS", "q", 1⟩]
    ⟨"b.JS", "/x/b.JS", 1, 1, "JS"⟩ (by decide)

/-- When every read succeeds the loop posts, in order, one progress event
per file: the `k`-th carries `Math.round(k / n * 85)`. -/
theorem scanLoop_success (n : Nat) (fs : List InputFile) :
    ∀ d, scanLoopEvents n d (fs.map some) =
      ((List.range' (d + 1) fs.length).map
        (fun (k : Nat) => Event.progress (jsRound ((k : ℚ) / (n : ℚ) * 85))), true) := by
  induction fs with
  | nil => intro d; rfl
  | cons f rest ih =>
    intro d
    simp only [List.map_cons, scanLoopEvents, ih (d + 1), List.length_cons,
      List.range'_succ]
    simp [Nat.add_right_comm d 1 1]

/-- Progress percentages grow with the completed-file count. -/
theorem jsRound_progress_mono {n : Nat} (hn : 0 < n) {a b : Nat}
    (hab : a ≤ b) :
    jsRound ((a : ℚ) / (n : ℚ) * 85) ≤ jsRound ((b : ℚ) / (n : ℚ) * 85) := by
  unfold jsRound
  have hn' : (0 : ℚ) < (n : ℚ) := by exact_mod_cast hn
  have hab' : (a : ℚ) ≤ (b : ℚ) := by exact_mod_cast hab
  apply Int.floor_le_floor
  have := (div_le_div_iff_of_pos_right hn').mpr hab'
  nlinarith

/-- The last per-file percentage is `Math.round(n / n * 85) = 85`. -/
theorem jsRound_progress_last {n : Nat} (hn : n ≠ 0) :
    jsRound ((n : ℚ) / (n : ℚ) * 85) = 85 := by
  rw [div_self (by exact_mod_cast hn), one_mul]
  unfold jsRound
  rw [Int.floor_eq_iff]
  constructor <;> norm_num

/-- C7: on a successful run over a non-empty file list the event trace is
`analysisStarted`, one progress event per file whose value is
`round(completed / total * 85)`, the aggregation-phase `progress 100`, and
the report; the emitted progress values are non-decreasing and the final
one is exactly 100. -/
theorem progress_events_monotone (wn now : String) (files : List InputFile)
    (h : files ≠ []) :
    analyzeWorkspaceEvents wn now (files.map some) =
      Event.analysisStarted ::
        ((List.range' 1 files.length).map
            (fun (k : Nat) => Event.progress
              (jsRound ((k : ℚ) / (files.length : ℚ) * 85))) ++
         [Event.progress 100,
          Event.analysisResult (analyzeWorkspace wn now files)]) ∧
    ((List.range' 1 files.length).map
        (fun (k : Nat) => jsRound ((k : ℚ) / (files.length : ℚ) * 85)) ++
      [(100 : Int)]).Chain' (· ≤ ·) ∧
    ((List.range' 1 files.length).map
        (fun (k : Nat) => jsRound ((k : ℚ) / (files.length : ℚ) * 85)) ++
      [(100 : Int)]).getLast? = some 100 := by
  have hn : 0 < files.length := List.length_pos.mpr h
  refine ⟨?_, ?_, List.getLast?_concat _⟩
  · simp only [analyzeWorkspaceEvents, List.length_map,
      scanLoop_success files.length files 0, List.filterMap_map,
      Function.comp_def, Option.map_some]
    simp [List.filterMap_some, List.map_map]
  · apply List.Chain'.append
    · have hp : List.Pairwise (· ≤ ·)
          ((List.range' 1 files.length).map
            (fun (k : Nat) => jsRound ((k : ℚ) / (files.length : ℚ) * 85))) := by
        rw [List.pairwise_map]
        exact (List.pairwise_lt_range' 1 files.length).imp
          (fun hab => jsRound_progress_mono hn (le_of_lt hab))
      exact hp.chain'
    · exact List.chain'_singleton _
    · intro x hx y hy
      simp only [List.head?_cons, Option.mem_def, Option.some.injEq] at hy
      subst hy
      obtain ⟨m, hm⟩ := Nat.exists_eq_succ_of_ne_zero (Nat.pos_iff_ne_zero.mp hn)
      rw [hm, List.range'_concat, List.map_append] at hx
      simp only [List.map_cons, List.map_nil, List.getLast?_concat,
        Option.mem_def, Option.some.injEq] at hx
      subst hx
      rw [show (1 + 1 * m : Nat) = m.succ by omega,
        jsRound_progress_last (Nat.succ_ne_zero m)]
      norm_num

/-- C7 (witness): a concrete one-file successful run ends at progress
value 100. -/
theorem progress_events_monotone_witness :
    ([(⟨"/w/a.ts", "a.ts", "x", 1⟩ : InputFile)] ≠ []) ∧
    ((List.range' 1 (1 : Nat)).map
        (fun (k : Nat) => jsRound ((k : ℚ) / ((1 : Nat) : ℚ) * 85)) ++
      [(100 : Int)]).getLast? = some 100 :=
  ⟨by decide,
   (progress_events_monotone "w" "t" [⟨"/w/a.ts", "a.ts", "x", 1⟩]
     (by decide)).2.2⟩

/-- If any file's processing throws, the loop stops right there: its
events are the progress notifications posted so far and the run is marked
failed. -/
theorem scanLoop_fail (n : Nat) : ∀ (reads : List (Option InputFile)) (d : Nat),
    none ∈ reads →
    ∃ ps, scanLoopEvents n d reads = (ps, false) ∧
      ∀ e ∈ ps, ∃ v, e = Event.progress v := by
  intro reads
  induction reads with
  | nil => intro d h; simp at h
  | cons r rest ih =>
    intro d h
    cases r with
    | none =>
      exact ⟨[Event.progress (jsRound ((d + 1 : ℚ) / (n : ℚ) * 85))], rfl,
        by simp⟩
    | some f =>
      have h' : none ∈ rest := by simpa using h
      obtain ⟨ps, hps, hall⟩ := ih (d + 1) h'
      refine ⟨Event.progress (jsRound ((d + 1 : ℚ) / (n : ℚ) * 85)) :: ps,
        ?_, ?_⟩
      · simp [scanLoopEvents, hps]
      · intro e he
        rcases List.mem_cons.mp he with rfl | he'
        · exact ⟨_, rfl⟩
        · exact hall e he'

/-- C8: when reading any file (or anything else inside the loop body)
throws, the whole scan aborts with no partial report: the trace is
`analysisStarted`, zero or more progress events, then exactly one
`analysisFailed` carrying no payload, and no `analysisResult` event occurs
anywhere in the trace. -/
theorem failure_aborts_scan (wn now : String)
    (reads : List (Option InputFile)) (h : none ∈ reads) :
    ∃ ps, analyzeWorkspaceEvents wn now reads =
        Event.analysisStarted :: ps ++ [Event.analysisFailed] ∧
      (∀ e ∈ ps, ∃ v, e = Event.progress v) ∧
      Event.analysisFailed ∉ ps ∧
      ∀ r : AnalysisReport,
        Event.analysisResult r ∉ analyzeWorkspaceEvents wn now reads := by
  obtain ⟨ps, hps, hall⟩ := scanLoop_fail reads.length reads 0 h
  have heq : analyzeWorkspaceEvents wn now reads =
      Event.analysisStarted :: ps ++ [Event.analysisFailed] := by
    simp [analyzeWorkspaceEvents, hps]
  refine ⟨ps, heq, hall, ?_, ?_⟩
  · intro hmem
    obtain ⟨v, hv⟩ := hall _ hmem
    cases hv
  · intro r hr
    rw [heq] at hr
    rcases List.mem_cons.mp hr with hr' | hr'
    · cases hr'
    · rcases List.mem_append.mp hr' with hr'' | hr''
      · obtain ⟨v, hv⟩ := hall _ hr''
        cases hv
      · rcases List.mem_singleton.mp hr''

/-- C8 (witness): a one-file run whose only read throws posts
`analysisStarted`, its progress event, then `analysisFailed`. -/
theorem failure_aborts_scan_witness :
    (none ∈ ([none] : List (Option InputFile))) ∧
    ∃ ps, analyzeWorkspaceEvents "w" "t" ([none] : List (Option InputFile)) =
        Event.analysisStarted :: ps ++ [Event.analysisFailed] ∧
      (∀ e ∈ ps, ∃ v, e = Event.progress v) ∧
      Event.analysisFailed ∉ ps ∧
      ∀ r : AnalysisReport,
        Event.analysisResult r ∉
          analyzeWorkspaceEvents "w" "t" ([none] : List (Option InputFile)) :=
  ⟨by simp, failure_aborts_scan "w" "t" [none] (by simp)⟩

end CodePulse
